import Mathlib

/-!
Verification development for the UniFi Access doorbell controller
(ESP32 firmware, `src/esp32/unifi-doorbell/src`).

The definitions below are a shallow embedding of the C++ sources:

* `extractHeader`, `extractCookie`, `unifiLogin` — `unifi_api.cpp` login
  protocol and raw-response header/cookie parsing;
* `ChunkedState`, `chunkedRead`, `readNextChunkSize`, … — the
  `ChunkedStream` wrapper that strips HTTP/1.1 chunked framing;
* `Mailbox`, `websocketDataEvent`, `processWebSocketMessage` — the single
  slot inbound message buffer of `websocket.cpp`;
* `CallState`, `handleRemoteView`, `handleRemoteViewChange`,
  `clearStaleDoorbellState` — active-call lifecycle;
* `LoopState`, `loopStep`, `ReachableLoop` — the reconnect/relogin state
  machine of `main.cpp`'s `loop()`;
* `TopoDevice`, `deviceToReader`, `extractReaders`, `unifiGetTopology` —
  topology post-processing and the fetch retry loop.

Byte strings are modelled as `List Char`; wall-clock instants as `Nat`
milliseconds; machine `int` values that can go negative as `Int`.
-/

/-! ## Generic string helpers (model of Arduino `String` operations) -/

/-- `listStartsWith needle hay` — does `hay` begin with `needle`? -/
def listStartsWith : List Char → List Char → Bool
  | [], _ => true
  | _ :: _, [] => false
  | n :: ns, h :: hs => n == h && listStartsWith ns hs

/-- Index of the first occurrence of `needle` inside `hay`
(model of `String.indexOf` / `strstr` / `memmem`). -/
def findSub (hay needle : List Char) : Option Nat :=
  if listStartsWith needle hay then some 0
  else
    match hay with
    | [] => none
    | _ :: t => (findSub t needle).map (· + 1)

/-- Does `needle` occur inside `hay`? (`strstr(hay, needle) != nullptr`). -/
def containsSub (hay needle : List Char) : Bool :=
  (findSub hay needle).isSome

/-- `indexOf(needle, start)`: first occurrence at or after `start`. -/
def indexOfFrom (hay needle : List Char) (start : Nat) : Option Nat :=
  (findSub (hay.drop start) needle).map (· + start)

/-- ASCII lower-casing of one character (Arduino `toLowerCase`). -/
def toLowerChar (c : Char) : Char :=
  if 'A' ≤ c ∧ c ≤ 'Z' then Char.ofNat (c.toNat + 32) else c

/-- ASCII lower-casing of a byte string. -/
def toLowerList (s : List Char) : List Char :=
  s.map toLowerChar

/-- `substring(start, stop)` — characters in `[start, stop)`. -/
def substringLC (s : List Char) (start stop : Nat) : List Char :=
  (s.drop start).take (stop - start)

/-! ## Header / cookie extraction (`unifi_api.cpp:747-777`) -/

/-- Model of `extractHeader`: search for `"\r\n" ++ name ++ ": "` first
exactly, then case-insensitively; the value runs to the next CRLF. -/
def extractHeader (response headerName : List Char) : List Char :=
  let search := '\r' :: '\n' :: (headerName ++ ':' :: ' ' :: [])
  let idx :=
    match findSub response search with
    | some i => some i
    | none => findSub (toLowerList response) (toLowerList search)
  match idx with
  | none => []
  | some i =>
    let start := i + search.length
    match indexOfFrom response ('\r' :: '\n' :: []) start with
    | none => []
    | some e => substringLC response start e

/-- Model of `extractCookie`: value of `name ++ "="`, terminated at the
first `;`, else at the first CRLF, else absent. -/
def extractCookie (response cookieName : List Char) : List Char :=
  let search := cookieName ++ '=' :: []
  match findSub response search with
  | none => []
  | some i =>
    let start := i + search.length
    let e :=
      match indexOfFrom response (';' :: []) start with
      | some e => some e
      | none => indexOfFrom response ('\r' :: '\n' :: []) start
    match e with
    | none => []
    | some e => substringLC response start e

/-! ## Login protocol (`unifiLogin`, `unifi_api.cpp:206-292`) -/

/-- Global session state mutated by `unifiLogin`. -/
structure UnifiSession where
  csrfToken : List Char
  sessionCookie : List Char
  userId : List Char
  userName : List Char
  isLoggedIn : Bool
  unifiLastError : List Char
deriving DecidableEq

/-- Environment of one login exchange: configuration plus the raw bytes of
the two HTTP responses (`GET /` and `POST /api/auth/login`). -/
structure LoginEnv where
  hasCreds : Bool
  connect1 : Bool
  connect2 : Bool
  resp1 : List Char
  resp2 : List Char
  username : List Char
deriving DecidableEq

/-- Model of `unifiLogin()`: two-phase CSRF/cookie login against the raw
response texts. Returns the C function's `bool` plus the updated session. -/
def unifiLogin (env : LoginEnv) (s : UnifiSession) : Bool × UnifiSession :=
  let s := { s with unifiLastError := [] }
  if !env.hasCreds then (false, s)
  else if !env.connect1 then
    (false, { s with unifiLastError := "Connection failed".data })
  else
    let s := { s with csrfToken := extractHeader env.resp1 "X-Csrf-Token".data }
    if !env.connect2 then
      (false, { s with unifiLastError := "Reconnection failed".data })
    else
      let newToken := extractHeader env.resp2 "X-Updated-Csrf-Token".data
      let newToken :=
        if newToken.isEmpty then extractHeader env.resp2 "X-Csrf-Token".data
        else newToken
      let s := if newToken.isEmpty then s else { s with csrfToken := newToken }
      let cookie := extractCookie env.resp2 "TOKEN".data
      let s := { s with sessionCookie := cookie }
      if !cookie.isEmpty then
        (true, { s with userId := env.username, userName := env.username,
                        isLoggedIn := true })
      else
        (false, { s with unifiLastError := "Login failed".data })

/-! ## ChunkedStream (`unifi_api.cpp:12-181`)

The wall-clock timeouts of the C++ class are modelled by exhaustion of the
finite `input` list: `waitForData` succeeds exactly when bytes remain. -/

/-- Hex digit value of a character (`strtol` base-16 digit classes). -/
def hexVal (c : Char) : Option Nat :=
  if '0' ≤ c ∧ c ≤ '9' then some (c.toNat - 48)
  else if 'a' ≤ c ∧ c ≤ 'f' then some (c.toNat - 87)
  else if 'A' ≤ c ∧ c ≤ 'F' then some (c.toNat - 55)
  else none

/-- Accumulate leading hex digits, stopping at the first non-digit. -/
def parseHexAux : List Char → Nat → Nat
  | [], acc => acc
  | c :: r, acc =>
    match hexVal c with
    | some d => parseHexAux r (acc * 16 + d)
    | none => acc

/-- Digit part of `strtol(_, _, 16)` including the optional `0x` prefix. -/
def parseHexBody (l : List Char) : Nat :=
  match l with
  | c0 :: x :: r =>
    if c0 = '0' ∧ (x = 'x' ∨ x = 'X') then parseHexAux r 0
    else parseHexAux (c0 :: x :: r) 0
  | _ => parseHexAux l 0

/-- Model of `strtol(line, NULL, 16)`: optional blanks, optional sign,
hex digits; `0` when no digit parses. -/
def strtol16 (s : List Char) : Int :=
  let t := s.dropWhile (fun c => c == ' ' || c == '\t')
  match t with
  | [] => 0
  | c :: r =>
    if c = '-' then -(Int.ofNat (parseHexBody r))
    else if c = '+' then Int.ofNat (parseHexBody r)
    else Int.ofNat (parseHexBody t)

/-- The chunk-size-line read loop: collect characters up to the first
`'\n'` (consuming it), dropping every `'\r'`; if the input ends first, the
whole input is consumed. Returns (line, rest). -/
def splitLine : List Char → List Char × List Char
  | [] => ([], [])
  | c :: r =>
    if c = '\n' then ([], r)
    else if c = '\r' then splitLine r
    else
      let (l, rest) := splitLine r
      (c :: l, rest)

/-- `skipChunkTrailer`: consume up to two CR/LF bytes after chunk data; a
non-CRLF byte is consumed and stops the scan. Returns the remaining input. -/
def skipChunkTrailer : List Char → List Char
  | [] => []
  | c :: r => if c = '\r' ∨ c = '\n' then r.tail else r

/-- State of a `ChunkedStream` (fields of the C++ class; the byte source
`client` is the `input` list). -/
structure ChunkedState where
  input : List Char
  isChunked : Bool
  remainingInChunk : Int
  finished : Bool
  needChunkSize : Bool
deriving DecidableEq

/-- Constructor state: `remainingInChunk = 0`, `finished = false`,
`needChunkSize = true`. -/
def initialChunkedState (input : List Char) (chunked : Bool) : ChunkedState :=
  ⟨input, chunked, 0, false, true⟩

/-- `readNextChunkSize`: stall (empty input) sets `finished`; otherwise
parse the size line; a zero (or unparseable, hence zero) size sets
`finished`. Returns the C `bool` and the new state. -/
def readNextChunkSize (st : ChunkedState) : Bool × ChunkedState :=
  match st.input with
  | [] => (false, { st with finished := true })
  | _ :: _ =>
    let (line, rest) := splitLine st.input
    let r := strtol16 line
    let st1 := { st with input := rest, remainingInChunk := r, needChunkSize := false }
    if r = 0 then (false, { st1 with finished := true }) else (true, st1)

/-- Tail of `read()` once a chunk header is in force: bounds check, data
stall check (which does NOT set `finished`), byte pop, trailer skip on the
chunk's last byte. -/
def chunkedReadCore (st : ChunkedState) : Option Char × ChunkedState :=
  if st.remainingInChunk ≤ 0 then (none, st)
  else
    match st.input with
    | [] => (none, st)
    | c :: r =>
      if st.remainingInChunk - 1 = 0 then
        (some c, { st with input := skipChunkTrailer r, remainingInChunk := 0,
                           needChunkSize := true })
      else
        (some c, { st with input := r, remainingInChunk := st.remainingInChunk - 1 })

/-- Model of `ChunkedStream::read()`: `none` stands for the C return `-1`. -/
def chunkedRead (st : ChunkedState) : Option Char × ChunkedState :=
  if st.finished then (none, st)
  else if st.isChunked then
    if st.needChunkSize then
      match readNextChunkSize st with
      | (false, st1) => (none, st1)
      | (true, st1) => chunkedReadCore st1
    else chunkedReadCore st
  else
    match st.input with
    | [] => (none, st)
    | c :: r => (some c, { st with input := r })

/-- Model of `ChunkedStream::available()` (it may consume a size line). -/
def chunkedAvailable (st : ChunkedState) : Int × ChunkedState :=
  if st.finished then (0, st)
  else if st.isChunked then
    if st.needChunkSize then
      match readNextChunkSize st with
      | (false, st1) => (0, st1)
      | (true, st1) => (min st1.remainingInChunk (st1.input.length : Int), st1)
    else (min st.remainingInChunk (st.input.length : Int), st)
  else ((st.input.length : Int), st)

/-- Drain the stream with `read()` until `-1` or out of fuel, collecting
the logical content bytes and the final state. -/
def readAllSt (st : ChunkedState) : Nat → List Char × ChunkedState
  | 0 => ([], st)
  | fuel + 1 =>
    match chunkedRead st with
    | (none, st1) => ([], st1)
    | (some c, st1) =>
      let (l, stf) := readAllSt st1 fuel
      (c :: l, stf)

/-! ### HTTP chunked encoder (specification side of the round trip) -/

/-- Hex digit character, lowercase letters (`0`–`9`, `a`–`f`). -/
def hexDigit (n : Nat) : Char :=
  if n < 10 then Char.ofNat (48 + n) else Char.ofNat (87 + n)

/-- Big-endian hex digits of `n` prepended to `acc`; `fuel` bounds the
digit count (any `fuel ≥ n` is enough). -/
def toHexCore : Nat → Nat → List Char → List Char
  | 0, _, acc => acc
  | fuel + 1, n, acc =>
    if n = 0 then acc else toHexCore fuel (n / 16) (hexDigit (n % 16) :: acc)

/-- Hexadecimal rendering of a chunk size. -/
def toHex (n : Nat) : List Char :=
  if n = 0 then '0' :: [] else toHexCore n n []

/-- One chunk of HTTP/1.1 chunked framing: hex size line, data, CRLF. -/
def encodeChunk (d : List Char) : List Char :=
  toHex d.length ++ '\r' :: '\n' :: (d ++ '\r' :: '\n' :: [])

/-- Valid chunked framing of a payload split into `chunks`, closed by the
zero-size terminator `0\r\n\r\n`. -/
def chunkEncode (chunks : List (List Char)) : List Char :=
  (chunks.map encodeChunk).flatten ++ '0' :: '\r' :: '\n' :: '\r' :: '\n' :: []

/-! ## Inbound mailbox (`websocket.cpp:63-78`, `210-218`, `websocket.h:18`) -/

def MESSAGE_BUFFER_SIZE : Nat := 8192

/-- The marker scanned for by `memmem(data, len, "remote_view", 11)`. -/
def containsMarker (frame : List Char) : Bool :=
  containsSub frame "remote_view".data

/-- Single-slot mailbox shared between the transport task and the control
loop: the ready flag, whether `pendingMessage` was allocated, and the
buffered bytes (the NUL terminator is implicit). -/
structure Mailbox where
  pendingMessageProcess : Bool
  bufAllocated : Bool
  pendingMessage : List Char
deriving DecidableEq

/-- Model of the `WEBSOCKET_EVENT_DATA` case of `websocket_event_handler`:
complete text frames (`op_code == 0x01`) containing the marker are copied
into the slot, truncated to `MESSAGE_BUFFER_SIZE - 1` bytes, only when the
slot is free; otherwise the frame is dropped. -/
def websocketDataEvent (opcode : Nat) (frame : List Char) (mb : Mailbox) : Mailbox :=
  if opcode = 1 ∧ frame ≠ [] then
    if containsMarker frame then
      if mb.pendingMessageProcess = false ∧ mb.bufAllocated = true then
        { mb with pendingMessage := frame.take (MESSAGE_BUFFER_SIZE - 1),
                  pendingMessageProcess := true }
      else mb
    else mb
  else mb

/-- Model of `processWebSocketMessage()`: consume the slot if ready and
return the message handed to `handleWebSocketMessage`. -/
def processWebSocketMessage (mb : Mailbox) : Option (List Char) × Mailbox :=
  if mb.pendingMessageProcess then
    (some mb.pendingMessage, { mb with pendingMessageProcess := false })
  else (none, mb)

/-! ## Active call state (`websocket.cpp:220-279`, `main.cpp:206-216`) -/

def STALE_CALL_TIMEOUT : Nat := 300000

/-- The four globals that describe the active doorbell call. -/
structure CallState where
  activeRequestId : List Char
  activeDeviceId : List Char
  activeConnectedUahId : List Char
  activeCallTime : Nat
deriving DecidableEq

/-- `access.remote_view` (ring) branch of `handleWebSocketMessage`: a
non-empty `request_id` overwrites the active call. -/
def handleRemoteView (requestId deviceId connectedUahId : List Char) (now : Nat)
    (s : CallState) : CallState :=
  if requestId ≠ [] then ⟨requestId, deviceId, connectedUahId, now⟩ else s

/-- `access.remote_view.change` (end) branch: clear only on a non-empty id
matching the active one; `activeCallTime` is left untouched there. -/
def handleRemoteViewChange (remoteCallRequestId : List Char) (s : CallState) : CallState :=
  if remoteCallRequestId ≠ [] ∧ s.activeRequestId = remoteCallRequestId then
    { s with activeRequestId := [], activeDeviceId := [], activeConnectedUahId := [] }
  else s

/-- The stale-call check at the bottom of `loop()`. -/
def clearStaleDoorbellState (now : Nat) (s : CallState) : CallState :=
  if s.activeRequestId ≠ [] ∧ s.activeCallTime > 0 ∧ now > s.activeCallTime ∧
      now - s.activeCallTime > STALE_CALL_TIMEOUT then
    ⟨[], [], [], 0⟩
  else s

/-! ## Reconnect/relogin state machine (`main.cpp:123-225`,
`websocket.cpp:43-60`, `193-208`) -/

def LOGIN_RETRY_INTERVAL : Nat := 30000
def WS_RETRY_INTERVAL : Nat := 10000
def WS_MAX_FAILURES : Nat := 5

/-- Globals of `loop()` relevant to reconnect escalation. -/
structure LoopState where
  isLoggedIn : Bool
  wsConnected : Bool
  wsReconnectFailures : Nat
  wsReconnectCount : Nat
  lastWsReconnect : Nat
  lastLoginAttempt : Nat
deriving DecidableEq

/-- What the websocket block of one loop iteration did. -/
inductive WsAction where
  | idle
  | rawReconnect
  | forceRelogin
deriving DecidableEq

/-- Events driving the state machine: the login retry block of `loop()`
(with the outcome of `unifiLogin()`), the transport's connected and
disconnected callbacks, and the websocket reconnect block of `loop()`. -/
inductive LoopEvent where
  | loginTick (now : Nat) (loginSucceeds : Bool)
  | wsConnectedEvt
  | wsDisconnectedEvt
  | reconnectTick (now : Nat)

/-- One transition of the reconnect/relogin machine, returning the action
taken by the websocket block. -/
def loopStep (s : LoopState) (e : LoopEvent) : LoopState × WsAction :=
  match e with
  | .loginTick now ok =>
    if s.isLoggedIn = false ∧ now - s.lastLoginAttempt > LOGIN_RETRY_INTERVAL then
      if ok then
        ({ s with lastLoginAttempt := now, isLoggedIn := true,
                  lastWsReconnect := now, wsReconnectFailures := 0 }, .idle)
      else ({ s with lastLoginAttempt := now }, .idle)
    else (s, .idle)
  | .wsConnectedEvt =>
    ({ s with wsConnected := true, wsReconnectFailures := 0 }, .idle)
  | .wsDisconnectedEvt =>
    ({ s with wsConnected := false }, .idle)
  | .reconnectTick now =>
    if s.isLoggedIn = true ∧ s.wsConnected = false ∧
        now - s.lastWsReconnect > WS_RETRY_INTERVAL then
      let failures := s.wsReconnectFailures + 1
      if failures ≥ WS_MAX_FAILURES then
        ({ s with lastWsReconnect := now, wsReconnectCount := s.wsReconnectCount + 1,
                  isLoggedIn := false, wsReconnectFailures := 0,
                  lastLoginAttempt := 0, wsConnected := false }, .forceRelogin)
      else
        ({ s with lastWsReconnect := now, wsReconnectCount := s.wsReconnectCount + 1,
                  wsReconnectFailures := failures }, .rawReconnect)
    else (s, .idle)

/-- Boot state of `loop()`'s globals. -/
def initLoopState : LoopState := ⟨false, false, 0, 0, 0, 0⟩

/-- States the control loop can actually be in. -/
inductive ReachableLoop : LoopState → Prop where
  | init : ReachableLoop initLoopState
  | step (s : LoopState) (e : LoopEvent) :
      ReachableLoop s → ReachableLoop (loopStep s e).1

/-! ## Topology post-processing (`fetchTopologyStreaming`,
`unifi_api.cpp:505-559`) -/

/-- Whitelisted fields of one `device_groups[][]` entry. -/
structure TopoDevice where
  device_type : List Char
  unique_id : List Char
  name : List Char
  mac : List Char
deriving DecidableEq

structure TopoDoor where
  name : List Char
  device_groups : List (List TopoDevice)
deriving DecidableEq

structure TopoFloor where
  name : List Char
  doors : List TopoDoor
deriving DecidableEq

structure TopoSite where
  floors : List TopoFloor
deriving DecidableEq

/-- One emitted reader record. -/
structure TopoReader where
  id : List Char
  name : List Char
  mac : List Char
  deviceType : List Char
  location : List Char
deriving DecidableEq

/-- Reader classification: `strstr` on `UA-G2`, `UA-G3`, `Reader`. -/
def isReaderType (t : List Char) : Bool :=
  containsSub t "UA-G2".data || containsSub t "UA-G3".data ||
    containsSub t "Reader".data

/-- `location` built from floor and door names (`unifi_api.cpp:538-542`). -/
def buildLocation (floorName doorName : List Char) : List Char :=
  if doorName = [] then floorName
  else if floorName = [] then doorName
  else floorName ++ ' ' :: '/' :: ' ' :: doorName

/-- Emission of one device entry: skip on empty `unique_id`, emit a reader
record when the type qualifies. -/
def deviceToReader (floorName doorName : List Char) (d : TopoDevice) : List TopoReader :=
  if d.unique_id = [] then []
  else if isReaderType d.device_type then
    ⟨d.unique_id, d.name, d.mac, d.device_type, buildLocation floorName doorName⟩ :: []
  else []

/-- The nested device walk of `fetchTopologyStreaming`, in document order. -/
def extractReaders (data : List TopoSite) : List TopoReader :=
  data.flatMap fun site =>
    site.floors.flatMap fun fl =>
      fl.doors.flatMap fun dr =>
        dr.device_groups.flatMap fun g =>
          g.flatMap (deviceToReader fl.name dr.name)

/-! ## Topology fetch retry loop (`unifiGetTopology`, `unifi_api.cpp:562-595`) -/

/-- Observable outcome of `unifiGetTopology`. -/
inductive TopoReply where
  | ok (payload : List Char)
  | failedRetryable
  | notLoggedIn
deriving DecidableEq

/-- The `for (attempt = 1..maxRetries)` loop; `fetch k` is the outcome of
`fetchTopologyStreaming` on attempt `k`. Returns the reply, the number of
attempts performed, and the `delay` calls issued (milliseconds). -/
def topoLoop (fetch : Nat → Option (List Char)) : Nat → Nat → TopoReply × Nat × List Nat
  | _, 0 => (.failedRetryable, 0, [])
  | attempt, fuel + 1 =>
    match fetch attempt with
    | some payload => (.ok payload, 1, [])
    | none =>
      if attempt < 3 then
        let (r, n, ds) := topoLoop fetch (attempt + 1) fuel
        (r, n + 1, 1000 :: ds)
      else (.failedRetryable, 1, [])

/-- Model of `unifiGetTopology()` (`maxRetries = 3`). -/
def unifiGetTopology (loggedIn : Bool) (fetch : Nat → Option (List Char)) :
    TopoReply × Nat × List Nat :=
  if loggedIn then topoLoop fetch 1 3 else (.notLoggedIn, 0, [])

/-! ## Concrete inputs used by witnesses -/

/-- Mock login exchange: `X-Csrf-Token` on GET; `Set-Cookie: TOKEN=abc123`
and `X-Updated-Csrf-Token: def456` (plus a decoy `X-Csrf-Token`) on POST. -/
def c1Env : LoginEnv :=
  { hasCreds := true, connect1 := true, connect2 := true,
    resp1 := "HTTP/1.1 200 OK\r\nX-Csrf-Token: tok0\r\n\r\n".data,
    resp2 := ("HTTP/1.1 200 OK\r\nX-Csrf-Token: other\r\n" ++
              "X-Updated-Csrf-Token: def456\r\n" ++
              "Set-Cookie: TOKEN=abc123; Path=/\r\n\r\n").data,
    username := "admin".data }

/-- Fresh (unauthenticated) session. -/
def freshSession : UnifiSession := ⟨[], [], [], [], false, []⟩

/-- Loop states along a concrete run: login success at 40000 ms, then four
raw reconnect attempts at the retry interval. -/
def loopW1 : LoopState := (loopStep initLoopState (.loginTick 40000 true)).1
def loopW2 : LoopState := (loopStep loopW1 (.reconnectTick 50001)).1
def loopW3 : LoopState := (loopStep loopW2 (.reconnectTick 60002)).1
def loopW4 : LoopState := (loopStep loopW3 (.reconnectTick 70003)).1
def loopW5 : LoopState := (loopStep loopW4 (.reconnectTick 80004)).1

/-! ## Helper lemmas -/

/-- A data event that finds the mailbox slot occupied leaves the mailbox
(including the buffered message) unchanged. -/
theorem wsDataEvent_busy (mb : Mailbox) (h : mb.pendingMessageProcess = true)
    (op : Nat) (f : List Char) : websocketDataEvent op f mb = mb := by
  unfold websocketDataEvent
  split_ifs with h1 h2 h3 <;> simp_all

/-- The escalation threshold is never exceeded: every reachable loop state
has at most 4 recorded consecutive websocket failures. -/
theorem reachable_failures_le (s : LoopState) (h : ReachableLoop s) :
    s.wsReconnectFailures ≤ 4 := by
  induction h with
  | init => simp [initLoopState]
  | step s e hs ih =>
    cases e with
    | loginTick now ok =>
      simp only [loopStep]
      split_ifs <;> simp_all
    | wsConnectedEvt => simpa [loopStep]
    | wsDisconnectedEvt => simpa [loopStep]
    | reconnectTick now =>
      simp only [loopStep, WS_MAX_FAILURES]
      split_ifs <;> simp_all <;> omega

/-! ## Claims -/

/-- Claim C1: in a login exchange whose GET response carries an
`X-Csrf-Token` header and whose POST response carries
`Set-Cookie: TOKEN=abc123` and `X-Updated-Csrf-Token: def456`,
`unifiLogin` returns `true` and afterwards `isLoggedIn = true`,
`sessionCookie = "abc123"` and `csrfToken = "def456"` (the updated-token
header is preferred regardless of any `X-Csrf-Token` on the POST
response). -/
theorem c1_login_success (env : LoginEnv) (s : UnifiSession)
    (hc : env.hasCreds = true) (h1 : env.connect1 = true) (h2 : env.connect2 = true)
    (hget : extractHeader env.resp1 "X-Csrf-Token".data ≠ [])
    (hupd : extractHeader env.resp2 "X-Updated-Csrf-Token".data = "def456".data)
    (hcook : extractCookie env.resp2 "TOKEN".data = "abc123".data) :
    (unifiLogin env s).1 = true ∧
    (unifiLogin env s).2.isLoggedIn = true ∧
    (unifiLogin env s).2.sessionCookie = "abc123".data ∧
    (unifiLogin env s).2.csrfToken = "def456".data := by
  simp [unifiLogin, hc, h1, h2, hupd, hcook]

theorem c1_witness :
    (unifiLogin c1Env freshSession).1 = true ∧
    (unifiLogin c1Env freshSession).2.isLoggedIn = true ∧
    (unifiLogin c1Env freshSession).2.sessionCookie = "abc123".data ∧
    (unifiLogin c1Env freshSession).2.csrfToken = "def456".data :=
  c1_login_success c1Env freshSession rfl rfl rfl (by decide) (by decide) (by decide)

/-- Claim C2: in every reachable loop state the failure counter is at most
4, so a 6th raw reconnect can never be attempted; a reconnect tick that
observes the 5th consecutive failure (counter 4 → 5) forces
`isLoggedIn = false`, disconnects and resets the counter to 0, while ticks
for counts 1–4 perform a raw `connectWebSocket()`. -/
theorem c2_reconnect_escalation (s : LoopState) (hr : ReachableLoop s) (now : Nat)
    (hlog : s.isLoggedIn = true) (hconn : s.wsConnected = false)
    (hint : now - s.lastWsReconnect > WS_RETRY_INTERVAL) :
    s.wsReconnectFailures ≤ 4 ∧
    (s.wsReconnectFailures = 4 →
      (loopStep s (.reconnectTick now)).2 = .forceRelogin ∧
      (loopStep s (.reconnectTick now)).1.isLoggedIn = false ∧
      (loopStep s (.reconnectTick now)).1.wsConnected = false ∧
      (loopStep s (.reconnectTick now)).1.wsReconnectFailures = 0) ∧
    (s.wsReconnectFailures < 4 →
      (loopStep s (.reconnectTick now)).2 = .rawReconnect ∧
      (loopStep s (.reconnectTick now)).1.wsReconnectFailures
        = s.wsReconnectFailures + 1) := by
  refine ⟨reachable_failures_le s hr, ?_, ?_⟩
  · intro h4
    simp [loopStep, hlog, hconn, hint, h4, WS_MAX_FAILURES]
  · intro hlt
    have hnot : ¬ s.wsReconnectFailures + 1 ≥ WS_MAX_FAILURES := by
      simp [WS_MAX_FAILURES]; omega
    simp [loopStep, hlog, hconn, hint, hnot]

theorem c2_witness :
    (loopStep loopW5 (.reconnectTick 90005)).2 = WsAction.forceRelogin ∧
    (loopStep loopW5 (.reconnectTick 90005)).1.isLoggedIn = false ∧
    (loopStep loopW5 (.reconnectTick 90005)).1.wsReconnectFailures = 0 := by
  have hr : ReachableLoop loopW5 :=
    ReachableLoop.step loopW4 (.reconnectTick 80004)
      (ReachableLoop.step loopW3 (.reconnectTick 70003)
        (ReachableLoop.step loopW2 (.reconnectTick 60002)
          (ReachableLoop.step loopW1 (.reconnectTick 50001)
            (ReachableLoop.step initLoopState (.loginTick 40000 true)
              ReachableLoop.init))))
  have h := c2_reconnect_escalation loopW5 hr 90005 (by decide) (by decide) (by decide)
  have h4 := h.2.1 (by decide)
  exact ⟨h4.1, h4.2.1, h4.2.2.2⟩

/-- Claim C3: the mailbox holds at most one unconsumed message — a
doorbell-relevant frame arriving while `pendingMessageProcess` is set is
discarded without touching the buffered bytes, and of two frames delivered
before one `processWebSocketMessage()` only the first reaches the
decoder. -/
theorem c3_mailbox_single_slot (mb : Mailbox) (op1 op2 : Nat) (f f1 f2 : List Char) :
    (mb.pendingMessageProcess = true → websocketDataEvent op1 f mb = mb) ∧
    (mb.pendingMessageProcess = false → mb.bufAllocated = true →
      containsMarker f1 = true → f1 ≠ [] →
      (processWebSocketMessage
          (websocketDataEvent op2 f2 (websocketDataEvent 1 f1 mb))).1
          = some (f1.take (MESSAGE_BUFFER_SIZE - 1)) ∧
        (websocketDataEvent op2 f2 (websocketDataEvent 1 f1 mb)).pendingMessage
          = f1.take (MESSAGE_BUFFER_SIZE - 1)) := by
  constructor
  · intro h
    exact wsDataEvent_busy mb h op1 f
  · intro hfree halloc hmark hne
    have hm1 : websocketDataEvent 1 f1 mb =
        { mb with pendingMessage := f1.take (MESSAGE_BUFFER_SIZE - 1),
                  pendingMessageProcess := true } := by
      simp [websocketDataEvent, hfree, halloc, hmark, hne]
    rw [hm1, wsDataEvent_busy _ rfl op2 f2]
    simp [processWebSocketMessage]

theorem c3_witness :
    (processWebSocketMessage
        (websocketDataEvent 7 "second frame".data
          (websocketDataEvent 1 "event access.remote_view first".data
            ⟨false, true, []⟩))).1
      = some ("event access.remote_view first".data.take
                (MESSAGE_BUFFER_SIZE - 1)) :=
  ((c3_mailbox_single_slot ⟨false, true, []⟩ 1 7 []
      "event access.remote_view first".data "second frame".data).2
    rfl rfl (by decide) (by decide)).1

/-- Claim C6: a ring event with a non-empty `request_id` creates or
overwrites the active call; an end event clears it only on a matching id
(mismatched or stale ids leave it active and are no error); the loop's
staleness check clears a call older than 5 minutes without any end
event. -/
theorem c6_active_call_lifecycle (s : CallState) (rid did uid rid2 : List Char)
    (now now2 : Nat) :
    (rid ≠ [] → handleRemoteView rid did uid now s = ⟨rid, did, uid, now⟩) ∧
    (s.activeRequestId ≠ rid2 → handleRemoteViewChange rid2 s = s) ∧
    (rid2 ≠ [] → s.activeRequestId = rid2 →
      handleRemoteViewChange rid2 s
        = { s with activeRequestId := [], activeDeviceId := [],
                   activeConnectedUahId := [] }) ∧
    (s.activeRequestId ≠ [] → 0 < s.activeCallTime →
      now2 - s.activeCallTime > STALE_CALL_TIMEOUT →
      clearStaleDoorbellState now2 s = ⟨[], [], [], 0⟩) := by
  refine ⟨?_, ?_, ?_, ?_⟩
  · intro h
    simp [handleRemoteView, h]
  · intro h
    simp [handleRemoteViewChange]
    intro _
    exact fun he => absurd he h
  · intro h1 h2
    simp [handleRemoteViewChange, h1, h2]
  · intro h1 h2 h3
    have hgt : now2 > s.activeCallTime := by
      by_contra hle
      push_neg at hle
      have : now2 - s.activeCallTime = 0 := Nat.sub_eq_zero_of_le hle
      omega
    simp [clearStaleDoorbellState, h1, h2, h3, hgt]

theorem c6_witness :
    handleRemoteView "r1".data "d1".data [] 1000 ⟨[], [], [], 0⟩
      = ⟨"r1".data, "d1".data, [], 1000⟩ ∧
    handleRemoteViewChange "r2".data ⟨"r1".data, "d1".data, [], 1000⟩
      = ⟨"r1".data, "d1".data, [], 1000⟩ ∧
    handleRemoteViewChange "r1".data ⟨"r1".data, "d1".data, [], 1000⟩
      = ⟨[], [], [], 1000⟩ ∧
    clearStaleDoorbellState 302000 ⟨"r1".data, "d1".data, [], 1000⟩
      = ⟨[], [], [], 0⟩ := by
  refine ⟨?_, ?_, ?_, ?_⟩
  · exact (c6_active_call_lifecycle ⟨[], [], [], 0⟩ "r1".data "d1".data []
      "r2".data 1000 0).1 (by decide)
  · exact (c6_active_call_lifecycle ⟨"r1".data, "d1".data, [], 1000⟩ "r1".data
      "d1".data [] "r2".data 1000 0).2.1 (by decide)
  · exact (c6_active_call_lifecycle ⟨"r1".data, "d1".data, [], 1000⟩ []
      [] [] "r1".data 0 0).2.2.1 (by decide) (by decide)
  · exact (c6_active_call_lifecycle ⟨"r1".data, "d1".data, [], 1000⟩ []
      [] [] [] 0 302000).2.2.2 (by decide) (by decide) (by decide)

/-- Claim C7: a device entry is emitted as a reader record iff its
`unique_id` is non-empty and its `device_type` contains `UA-G2`, `UA-G3`
or `Reader` (case-sensitive); empty `unique_id` skips the entry
regardless of type; an emitted record's location is
`floorName ++ " / " ++ doorName` with the separator omitted when either
name is empty. -/
theorem c7_reader_classification (fl dr : List Char) (d : TopoDevice) :
    (deviceToReader fl dr d ≠ [] ↔
      d.unique_id ≠ [] ∧
        (containsSub d.device_type "UA-G2".data ||
          containsSub d.device_type "UA-G3".data ||
          containsSub d.device_type "Reader".data) = true) ∧
    (∀ r ∈ deviceToReader fl dr d,
      r.location =
        if dr = [] then fl
        else if fl = [] then dr
        else fl ++ ' ' :: '/' :: ' ' :: dr) ∧
    (d.unique_id = [] → deviceToReader fl dr d = []) := by
  unfold deviceToReader isReaderType buildLocation
  split_ifs with h1 h2 <;> simp_all

theorem c7_witness :
    (deviceToReader "Floor 1".data "Front".data
        ⟨"UA-G3-Mini".data, "id1".data, "n".data, "m".data⟩ ≠ [] ↔
      ("id1".data ≠ [] ∧
        (containsSub "UA-G3-Mini".data "UA-G2".data ||
          containsSub "UA-G3-Mini".data "UA-G3".data ||
          containsSub "UA-G3-Mini".data "Reader".data) = true)) ∧
    deviceToReader "Floor 1".data "Front".data
        ⟨"UA-Hub".data, "id2".data, "n".data, "m".data⟩ = [] ∧
    deviceToReader "Floor 1".data "Front".data
        ⟨"UA-G3-Mini".data, [], "n".data, "m".data⟩ = [] := by
  refine ⟨(c7_reader_classification "Floor 1".data "Front".data
      ⟨"UA-G3-Mini".data, "id1".data, "n".data, "m".data⟩).1, ?_, ?_⟩
  · have h := (c7_reader_classification "Floor 1".data "Front".data
      ⟨"UA-Hub".data, "id2".data, "n".data, "m".data⟩).1
    by_contra hne
    have := h.mp hne
    revert this
    decide
  · exact (c7_reader_classification "Floor 1".data "Front".data
      ⟨"UA-G3-Mini".data, [], "n".data, "m".data⟩).2.2 rfl

/-- Claim C8: `unifiGetTopology` makes at most 3 attempts, delays 1000 ms
between consecutive attempts after a failure, returns the first successful
attempt's payload, and after 3 failures returns the retryable failure
reply; it never raises (it is a total function). -/
theorem c8_topology_retry (fetch : Nat → Option (List Char)) :
    (unifiGetTopology true fetch).2.1 ≤ 3 ∧
    (∀ p, fetch 1 = some p →
      unifiGetTopology true fetch = (.ok p, 1, [])) ∧
    (∀ p, fetch 1 = none → fetch 2 = some p →
      unifiGetTopology true fetch = (.ok p, 2, [1000])) ∧
    (∀ p, fetch 1 = none → fetch 2 = none → fetch 3 = some p →
      unifiGetTopology true fetch = (.ok p, 3, [1000, 1000])) ∧
    (fetch 1 = none → fetch 2 = none → fetch 3 = none →
      unifiGetTopology true fetch = (.failedRetryable, 3, [1000, 1000])) := by
  cases h1 : fetch 1 <;> cases h2 : fetch 2 <;> cases h3 : fetch 3 <;>
    simp [unifiGetTopology, topoLoop, h1, h2, h3]

theorem c8_witness :
    unifiGetTopology true
        (fun k => if k = 3 then some "ok".data else none)
      = (.ok "ok".data, 3, [1000, 1000]) :=
  (c8_topology_retry (fun k => if k = 3 then some "ok".data else none)).2.2.2.1
    "ok".data (by decide) (by decide) (by decide)

/-- Claim C10: a relevant frame arriving while the slot is free is written
with at most `MESSAGE_BUFFER_SIZE - 1` payload bytes plus the terminator,
never exceeding the 8192-byte buffer; an over-long frame is truncated to
its first 8191 bytes and still marked ready, not dropped. -/
theorem c10_buffer_bounds (mb : Mailbox) (f : List Char)
    (hfree : mb.pendingMessageProcess = false) (halloc : mb.bufAllocated = true)
    (hmark : containsMarker f = true) (hne : f ≠ []) :
    (websocketDataEvent 1 f mb).pendingMessage.length + 1 ≤ MESSAGE_BUFFER_SIZE ∧
    (websocketDataEvent 1 f mb).pendingMessageProcess = true ∧
    (f.length ≤ MESSAGE_BUFFER_SIZE - 1 →
      (websocketDataEvent 1 f mb).pendingMessage = f) ∧
    (MESSAGE_BUFFER_SIZE - 1 < f.length →
      (websocketDataEvent 1 f mb).pendingMessage
        = f.take (MESSAGE_BUFFER_SIZE - 1)) := by
  have hm1 : websocketDataEvent 1 f mb =
      { mb with pendingMessage := f.take (MESSAGE_BUFFER_SIZE - 1),
                pendingMessageProcess := true } := by
    simp [websocketDataEvent, hfree, halloc, hmark, hne]
  rw [hm1]
  refine ⟨?_, rfl, ?_, fun _ => rfl⟩
  · have := List.length_take (MESSAGE_BUFFER_SIZE - 1) f
    simp only [MESSAGE_BUFFER_SIZE] at this ⊢
    omega
  · intro hle
    exact List.take_of_length_le hle

theorem c10_witness :
    (websocketDataEvent 1 "remote_view".data ⟨false, true, []⟩).pendingMessage.length + 1
        ≤ MESSAGE_BUFFER_SIZE ∧
      (websocketDataEvent 1 "remote_view".data ⟨false, true, []⟩).pendingMessageProcess
        = true :=
  ⟨(c10_buffer_bounds ⟨false, true, []⟩ "remote_view".data rfl rfl (by decide)
      (by decide)).1,
   (c10_buffer_bounds ⟨false, true, []⟩ "remote_view".data rfl rfl (by decide)
      (by decide)).2.1⟩

/-! ### Substring-search lemmas for the cookie/header contract -/

theorem findSub_single_none (l : List Char) (c : Char) (h : c ∉ l) :
    findSub l (c :: []) = none := by
  induction l with
  | nil => rfl
  | cons a t ih =>
    have hne : c ≠ a := fun he => h (he ▸ List.mem_cons_self a t)
    have hnt : c ∉ t := fun hm => h (List.mem_cons_of_mem a hm)
    simp [findSub, listStartsWith, hne, ih hnt]

theorem findSub_single_first (v : List Char) (c : Char) (rest : List Char)
    (h : c ∉ v) : findSub (v ++ c :: rest) (c :: []) = some v.length := by
  induction v with
  | nil => simp [findSub, listStartsWith]
  | cons a t ih =>
    have hne : c ≠ a := fun he => h (he ▸ List.mem_cons_self a t)
    have hnt : c ∉ t := fun hm => h (List.mem_cons_of_mem a hm)
    simp [findSub, listStartsWith, hne, ih hnt]

theorem findSub_cons (a : Char) (t n : List Char) :
    findSub (a :: t) n =
      if listStartsWith n (a :: t) then some 0
      else (findSub t n).map (· + 1) := by
  simp [findSub]

theorem findSub_crlf_first (v rest : List Char)
    (h : containsSub v ('\r' :: '\n' :: []) = false) :
    findSub (v ++ '\r' :: '\n' :: rest) ('\r' :: '\n' :: [])
      = some v.length := by
  induction v with
  | nil => simp [findSub, listStartsWith]
  | cons a t ih =>
    have hn : findSub (a :: t) ('\r' :: '\n' :: []) = none := by
      rw [containsSub] at h
      exact Option.not_isSome_iff_eq_none.mp (by simp [h])
    rw [findSub_cons] at hn
    by_cases hsw : listStartsWith ('\r' :: '\n' :: []) (a :: t) = true
    · rw [if_pos hsw] at hn
      exact absurd hn (by simp)
    · have hsw' : listStartsWith ('\r' :: '\n' :: []) (a :: t) = false :=
        Bool.eq_false_iff.mpr hsw
      rw [if_neg (by simp [hsw'])] at hn
      have hnt : findSub t ('\r' :: '\n' :: []) = none := by
        cases hft : findSub t ('\r' :: '\n' :: []) with
        | none => rfl
        | some k => rw [hft] at hn; exact absurd hn (by simp)
      have hct : containsSub t ('\r' :: '\n' :: []) = false := by
        simp [containsSub, hnt]
      have hsw2 : listStartsWith ('\r' :: '\n' :: [])
          (a :: (t ++ '\r' :: '\n' :: rest)) = false := by
        cases t with
        | nil => simp [listStartsWith]
        | cons b t2 =>
          simp only [listStartsWith, List.cons_append, Bool.and_true] at hsw' ⊢
          exact hsw'
      rw [List.cons_append, findSub_cons, if_neg (by simp [hsw2])]
      simp [ih hct]

/-! ### Hex round-trip lemmas for the chunked encoder/decoder -/

theorem hexVal_hexDigit (m : Nat) (h : m < 16) : hexVal (hexDigit m) = some m := by
  interval_cases m <;> decide

/-- Characters produced by the hex encoder are hex digits. -/
theorem toHexCore_mem (fuel : Nat) : ∀ n acc,
    (∀ c ∈ acc, (hexVal c).isSome = true) →
    ∀ c ∈ toHexCore fuel n acc, (hexVal c).isSome = true := by
  induction fuel with
  | zero => intro n acc hacc c hc; exact hacc c hc
  | succ f ih =>
    intro n acc hacc c hc
    rw [toHexCore] at hc
    by_cases hn : n = 0
    · rw [if_pos hn] at hc; exact hacc c hc
    · rw [if_neg hn] at hc
      refine ih (n / 16) _ ?_ c hc
      intro d hd
      rcases List.mem_cons.mp hd with h1 | h1
      · subst h1
        simp [hexVal_hexDigit (n % 16) (Nat.mod_lt n (by norm_num))]
      · exact hacc d h1

theorem toHex_mem (n : Nat) : ∀ c ∈ toHex n, (hexVal c).isSome = true := by
  intro c hc
  rw [toHex] at hc
  by_cases hn : n = 0
  · rw [if_pos hn] at hc
    rcases List.mem_singleton.mp hc with rfl
    decide
  · rw [if_neg hn] at hc
    exact toHexCore_mem n n [] (by intro d hd; cases hd) c hc

/-- The accumulator of `toHexCore` is a suffix. -/
theorem toHexCore_acc (fuel : Nat) : ∀ n acc,
    toHexCore fuel n acc = toHexCore fuel n [] ++ acc := by
  induction fuel with
  | zero => intro n acc; rfl
  | succ f ih =>
    intro n acc
    rw [toHexCore, toHexCore]
    by_cases hn : n = 0
    · simp [hn]
    · rw [if_neg hn, if_neg hn, ih (n / 16) (hexDigit (n % 16) :: acc),
        ih (n / 16) (hexDigit (n % 16) :: [])]
      simp

/-- Fuel above the value is irrelevant. -/
theorem toHexCore_fuel (n : Nat) : ∀ f1 f2 acc, n ≤ f1 → n ≤ f2 →
    toHexCore f1 n acc = toHexCore f2 n acc := by
  induction n using Nat.strong_induction_on with
  | _ n ih =>
    intro f1 f2 acc h1 h2
    by_cases hn : n = 0
    · subst hn
      cases f1 <;> cases f2 <;> simp [toHexCore]
    · obtain ⟨a, rfl⟩ : ∃ a, f1 = a + 1 :=
        ⟨f1 - 1, by omega⟩
      obtain ⟨b, rfl⟩ : ∃ b, f2 = b + 1 :=
        ⟨f2 - 1, by omega⟩
      rw [toHexCore, toHexCore, if_neg hn, if_neg hn]
      have hdiv : n / 16 < n := Nat.div_lt_self (Nat.pos_of_ne_zero hn) (by norm_num)
      exact ih (n / 16) hdiv a b _ (by omega) (by omega)

theorem parseHexAux_append (l1 : List Char) : ∀ l2 acc,
    (∀ c ∈ l1, (hexVal c).isSome = true) →
    parseHexAux (l1 ++ l2) acc = parseHexAux l2 (parseHexAux l1 acc) := by
  induction l1 with
  | nil => intro l2 acc _; rfl
  | cons a t ih =>
    intro l2 acc h
    have ha : (hexVal a).isSome = true := h a (List.mem_cons_self a t)
    obtain ⟨d, hd⟩ := Option.isSome_iff_exists.mp ha
    simp only [List.cons_append, parseHexAux, hd]
    exact ih l2 (acc * 16 + d) (fun c hc => h c (List.mem_cons_of_mem a hc))

/-- Parsing the digits of `n` yields `n` back. -/
theorem parseHexAux_toHexCore (n : Nat) (h : 0 < n) :
    parseHexAux (toHexCore n n []) 0 = n := by
  induction n using Nat.strong_induction_on with
  | _ n ih =>
    have hn : n ≠ 0 := by omega
    obtain ⟨f, rfl⟩ : ∃ f, n = f + 1 := ⟨n - 1, by omega⟩
    have hstep : toHexCore (f + 1) (f + 1) []
        = toHexCore f ((f + 1) / 16) [hexDigit ((f + 1) % 16)] := by
      rw [toHexCore, if_neg hn]
    have hmod : hexVal (hexDigit ((f + 1) % 16)) = some ((f + 1) % 16) :=
      hexVal_hexDigit ((f + 1) % 16) (Nat.mod_lt _ (by norm_num))
    by_cases hlt : f + 1 < 16
    · have hdiv0 : (f + 1) / 16 = 0 := Nat.div_eq_of_lt hlt
      have hone : toHexCore f ((f + 1) / 16) [hexDigit ((f + 1) % 16)]
          = [hexDigit ((f + 1) % 16)] := by
        rw [hdiv0]; cases f <;> simp [toHexCore]
      rw [hstep, hone]
      simp [parseHexAux, hmod]
      omega
    · have hdivpos : 0 < (f + 1) / 16 := Nat.div_pos (by omega) (by norm_num)
      have hdivlt : (f + 1) / 16 < f + 1 := Nat.div_lt_self h (by norm_num)
      have hfuel : toHexCore f ((f + 1) / 16) [hexDigit ((f + 1) % 16)]
          = toHexCore ((f + 1) / 16) ((f + 1) / 16) [] ++ [hexDigit ((f + 1) % 16)] := by
        rw [toHexCore_acc f ((f + 1) / 16) [hexDigit ((f + 1) % 16)],
          toHexCore_fuel ((f + 1) / 16) f ((f + 1) / 16) [] (by omega) le_rfl]
      rw [hstep, hfuel,
        parseHexAux_append _ _ _
          (toHexCore_mem ((f + 1) / 16) ((f + 1) / 16) [] (by intro d hd; cases hd)),
        ih ((f + 1) / 16) hdivlt hdivpos]
      simp [parseHexAux, hmod]
      omega

/-- Hex digits are none of the characters `strtol16` treats specially. -/
theorem hexVal_not_special (c : Char) (h : (hexVal c).isSome = true) :
    (c == ' ' || c == '\t') = false ∧ c ≠ '-' ∧ c ≠ '+' ∧
      c ≠ 'x' ∧ c ≠ 'X' ∧ c ≠ '\r' ∧ c ≠ '\n' := by
  refine ⟨?_, ?_, ?_, ?_, ?_, ?_, ?_⟩
  · by_cases h1 : c = ' '
    · subst h1; exact absurd h (by decide)
    · by_cases h2 : c = '\t'
      · subst h2; exact absurd h (by decide)
      · simp [h1, h2]
  all_goals intro he
  all_goals subst he
  all_goals exact absurd h (by decide)

theorem toHex_ne_nil (n : Nat) : toHex n ≠ [] := by
  by_cases hn : n = 0
  · simp [toHex, hn]
  · obtain ⟨f, rfl⟩ : ∃ f, n = f + 1 := ⟨n - 1, by omega⟩
    rw [toHex, if_neg hn, toHexCore, if_neg hn, toHexCore_acc]
    simp

/-- `parseHexBody` agrees with plain digit accumulation on digit strings. -/
theorem parseHexBody_digits (l : List Char)
    (h : ∀ c ∈ l, (hexVal c).isSome = true) :
    parseHexBody l = parseHexAux l 0 := by
  match l with
  | [] => rfl
  | a :: [] => rfl
  | a :: b :: r =>
    have hb : (hexVal b).isSome = true := h b (by simp)
    have hbx := (hexVal_not_special b hb).2.2.2
    rw [parseHexBody]
    rw [if_neg]
    rintro ⟨-, hx | hx⟩
    · exact hbx.1 hx
    · exact hbx.2.1 hx

/-- `strtol16` inverts the hex encoder on positive sizes. -/
theorem strtol16_toHex (n : Nat) (h : 0 < n) : strtol16 (toHex n) = (n : Int) := by
  have hhex := toHex_mem n
  obtain ⟨c, t, hct⟩ : ∃ c t, toHex n = c :: t := by
    cases hx : toHex n with
    | nil => exact absurd hx (toHex_ne_nil n)
    | cons c t => exact ⟨c, t, rfl⟩
  have hc : (hexVal c).isSome = true := hhex c (by rw [hct]; simp)
  have hspec := hexVal_not_special c hc
  rw [strtol16, hct]
  simp only [List.dropWhile_cons, hspec.1]
  simp only [Bool.false_eq_true, if_false]
  rw [if_neg hspec.2.1, if_neg hspec.2.2.1]
  rw [← hct, parseHexBody_digits (toHex n) hhex]
  rw [toHex, if_neg (by omega : n ≠ 0)]
  rw [parseHexAux_toHexCore n h]
  rfl

/-! ### Chunked decoder phase lemmas -/

/-- The size-line reader on a clean line followed by CRLF. -/
theorem splitLine_clean (s : List Char) (rest : List Char)
    (hs : ∀ c ∈ s, c ≠ '\n' ∧ c ≠ '\r') :
    splitLine (s ++ '\r' :: '\n' :: rest) = (s, rest) := by
  induction s with
  | nil => simp [splitLine]
  | cons a t ih =>
    have ha := hs a (List.mem_cons_self a t)
    simp [splitLine, ha.1, ha.2,
      ih (fun c hc => hs c (List.mem_cons_of_mem a hc))]

/-- `readNextChunkSize` on an input starting with a clean non-zero size
line consumes the line and stores the parsed size. -/
theorem readNext_line (s tail : List Char) (chunked : Bool) (r0 : Int)
    (hs : ∀ c ∈ s, c ≠ '\n' ∧ c ≠ '\r') (hne : s ≠ [])
    (hr : strtol16 s ≠ 0) :
    readNextChunkSize ⟨s ++ '\r' :: '\n' :: tail, chunked, r0, false, true⟩
      = (true, ⟨tail, chunked, strtol16 s, false, false⟩) := by
  have hsp := splitLine_clean s tail hs
  cases s with
  | nil => exact absurd rfl hne
  | cons a t =>
    simp only [List.cons_append] at hsp ⊢
    simp only [readNextChunkSize, hsp]
    rw [if_neg hr]

/-- `readNextChunkSize` at the head of an encoded chunk. -/
theorem readNext_encoded (c rest : List Char) (hc : c ≠ []) (r0 : Int)
    (chunked : Bool) :
    readNextChunkSize ⟨encodeChunk c ++ rest, chunked, r0, false, true⟩
      = (true, ⟨c ++ '\r' :: '\n' :: rest, chunked, (c.length : Int), false, false⟩) := by
  have hlen : 0 < c.length := List.length_pos.mpr hc
  have hstr : strtol16 (toHex c.length) = (c.length : Int) :=
    strtol16_toHex c.length hlen
  have hclean : ∀ ch ∈ toHex c.length, ch ≠ '\n' ∧ ch ≠ '\r' := by
    intro ch hch
    have hsp := hexVal_not_special ch (toHex_mem c.length ch hch)
    exact ⟨hsp.2.2.2.2.2.2, hsp.2.2.2.2.2.1⟩
  have happ : encodeChunk c ++ rest
      = toHex c.length ++ '\r' :: '\n' :: (c ++ '\r' :: '\n' :: rest) := by
    simp [encodeChunk]
  rw [happ, readNext_line (toHex c.length) (c ++ '\r' :: '\n' :: rest) chunked r0
    hclean (toHex_ne_nil c.length) (by rw [hstr]; exact_mod_cast hlen.ne'),
    hstr]

/-- `read()` with a pending size line proceeds as the core read on the
state left by a successful `readNextChunkSize`. -/
theorem chunkedRead_parse (st st1 : ChunkedState)
    (hf : st.finished = false) (hch : st.isChunked = true)
    (hn : st.needChunkSize = true)
    (hstep : readNextChunkSize st = (true, st1)) :
    chunkedRead st = chunkedReadCore st1 := by
  simp [chunkedRead, hf, hch, hn, hstep]

/-- `read()` mid-chunk is the core read. -/
theorem chunkedRead_core_eq (st : ChunkedState) (hf : st.finished = false)
    (hch : st.isChunked = true) (hn : st.needChunkSize = false) :
    chunkedRead st = chunkedReadCore st := by
  simp [chunkedRead, hf, hch, hn]

/-- Draining the data phase of one chunk yields the chunk bytes and then
continues after the chunk trailer with a fresh size-line state. -/
theorem readAllSt_data : ∀ (d : List Char) (r : Int) (rest : List Char) (fuel : Nat),
    d ≠ [] → r = (d.length : Int) → d.length ≤ fuel →
    readAllSt ⟨d ++ '\r' :: '\n' :: rest, true, r, false, false⟩ fuel
      = (d ++ (readAllSt ⟨rest, true, 0, false, true⟩ (fuel - d.length)).1,
         (readAllSt ⟨rest, true, 0, false, true⟩ (fuel - d.length)).2) := by
  intro d
  induction d with
  | nil => intro r rest fuel hne; exact absurd rfl hne
  | cons a t ih =>
    intro r rest fuel hne hr hf
    obtain ⟨f, rfl⟩ : ∃ f, fuel = f + 1 :=
      ⟨fuel - 1, by simp at hf; omega⟩
    have hrpos : ¬ r ≤ 0 := by
      rw [hr]; simp only [List.length_cons]; push_cast; omega
    cases t with
    | nil =>
      have hr1 : r = 1 := by rw [hr]; simp
      have hread : chunkedRead ⟨[a] ++ '\r' :: '\n' :: rest, true, r, false, false⟩
          = (some a, ⟨rest, true, 0, false, true⟩) := by
        rw [chunkedRead_core_eq _ rfl rfl rfl]
        simp [chunkedReadCore, hr1, skipChunkTrailer]
      simp only [readAllSt, hread]
      simp
    | cons b t2 =>
      have hrm : r - 1 = ((b :: t2).length : Int) := by
        rw [hr]; simp only [List.length_cons]; push_cast; ring
      have hrm0 : ¬ r - 1 = 0 := by
        rw [hrm]; simp only [List.length_cons]; push_cast; omega
      have hread : chunkedRead ⟨(a :: b :: t2) ++ '\r' :: '\n' :: rest, true, r, false, false⟩
          = (some a, ⟨(b :: t2) ++ '\r' :: '\n' :: rest, true, r - 1, false, false⟩) := by
        rw [chunkedRead_core_eq _ rfl rfl rfl]
        simp [chunkedReadCore, hrpos, hrm0]
      simp only [readAllSt, hread]
      rw [ih (r - 1) rest f (by simp) hrm (by simp at hf ⊢; omega)]
      have hfe : f - (b :: t2).length = f + 1 - (a :: b :: t2).length := by
        simp only [List.length_cons]; omega
      rw [hfe]
      simp

theorem chunkEncode_cons (c : List Char) (cs : List (List Char)) :
    chunkEncode (c :: cs) = encodeChunk c ++ chunkEncode cs := by
  simp [chunkEncode]

/-- Draining a fully framed stream yields the concatenated payload and
leaves the decoder `finished` on the terminator. -/
theorem readAllSt_encode : ∀ (chunks : List (List Char)),
    (∀ c ∈ chunks, c ≠ []) →
    ∀ fuel, (chunkEncode chunks).length ≤ fuel →
    readAllSt ⟨chunkEncode chunks, true, 0, false, true⟩ fuel
      = (chunks.flatten, ⟨'\r' :: '\n' :: [], true, 0, true, false⟩) := by
  intro chunks
  induction chunks with
  | nil =>
    intro _ fuel hf
    obtain ⟨f, rfl⟩ : ∃ f, fuel = f + 1 :=
      ⟨fuel - 1, by simp [chunkEncode] at hf; omega⟩
    have hread : chunkedRead ⟨chunkEncode [], true, 0, false, true⟩
        = (none, ⟨'\r' :: '\n' :: [], true, 0, true, false⟩) := by decide
    simp [readAllSt, hread]
  | cons c cs ih =>
    intro h fuel hf
    have hcne : c ≠ [] := h c (List.mem_cons_self c cs)
    have hclen : 0 < c.length := List.length_pos.mpr hcne
    have htl : 0 < (toHex c.length).length := List.length_pos.mpr (toHex_ne_nil _)
    have henc : (encodeChunk c).length
        = (toHex c.length).length + (c.length + 4) := by
      simp [encodeChunk]
    have hflen : (chunkEncode (c :: cs)).length
        = (encodeChunk c).length + (chunkEncode cs).length := by
      rw [chunkEncode_cons]; simp
    obtain ⟨f, rfl⟩ : ∃ f, fuel = f + 1 := ⟨fuel - 1, by omega⟩
    rw [chunkEncode_cons]
    have hnext := readNext_encoded c (chunkEncode cs) hcne 0 true
    have h1 : chunkedRead ⟨encodeChunk c ++ chunkEncode cs, true, 0, false, true⟩
        = chunkedReadCore ⟨c ++ '\r' :: '\n' :: chunkEncode cs, true,
            (c.length : Int), false, false⟩ :=
      chunkedRead_parse _ _ rfl rfl rfl hnext
    have h2 : chunkedRead ⟨c ++ '\r' :: '\n' :: chunkEncode cs, true,
          (c.length : Int), false, false⟩
        = chunkedReadCore ⟨c ++ '\r' :: '\n' :: chunkEncode cs, true,
            (c.length : Int), false, false⟩ :=
      chunkedRead_core_eq _ rfl rfl rfl
    have hcongr : readAllSt ⟨encodeChunk c ++ chunkEncode cs, true, 0, false, true⟩
          (f + 1)
        = readAllSt ⟨c ++ '\r' :: '\n' :: chunkEncode cs, true,
            (c.length : Int), false, false⟩ (f + 1) := by
      simp only [readAllSt, h1, h2]
    rw [hcongr,
      readAllSt_data c (c.length : Int) (chunkEncode cs) (f + 1) hcne rfl
        (by omega),
      ih (fun x hx => h x (List.mem_cons_of_mem c hx)) (f + 1 - c.length)
        (by omega)]
    simp

/-- When the cookie assignment is absent, `extractCookie` yields `""`. -/
theorem extractCookie_absent (resp name : List Char)
    (h : findSub resp (name ++ '=' :: []) = none) :
    extractCookie resp name = [] := by
  simp [extractCookie, h]

/-- First-match cookie value terminated at the first `;`. -/
theorem extractCookie_semi (name pre v rest : List Char)
    (hfirst : findSub (pre ++ (name ++ '=' :: []) ++ v ++ ';' :: rest)
        (name ++ '=' :: []) = some pre.length)
    (hnv : ';' ∉ v) :
    extractCookie (pre ++ (name ++ '=' :: []) ++ v ++ ';' :: rest) name = v := by
  have hdrop : (pre ++ (name ++ '=' :: []) ++ v ++ ';' :: rest).drop
      (pre.length + (name.length + 1)) = v ++ ';' :: rest := by
    rw [show pre ++ (name ++ '=' :: []) ++ v ++ ';' :: rest
        = (pre ++ (name ++ '=' :: [])) ++ (v ++ ';' :: rest) by
      simp [List.append_assoc]]
    exact List.drop_left' (by simp)
  simp only [List.append_assoc, List.cons_append, List.nil_append] at hfirst hdrop
  simp [extractCookie, hfirst, indexOfFrom, hdrop,
    findSub_single_first v ';' rest hnv, substringLC, List.take_left]

/-- Cookie value falling back to CRLF termination when no `;` follows. -/
theorem extractCookie_crlf (name pre v rest : List Char)
    (hfirst : findSub (pre ++ (name ++ '=' :: []) ++ v ++ '\r' :: '\n' :: rest)
        (name ++ '=' :: []) = some pre.length)
    (hnv : ';' ∉ v) (hnr : ';' ∉ rest)
    (hvcrlf : containsSub v ('\r' :: '\n' :: []) = false) :
    extractCookie (pre ++ (name ++ '=' :: []) ++ v ++ '\r' :: '\n' :: rest) name
      = v := by
  have hdrop : (pre ++ (name ++ '=' :: []) ++ v ++ '\r' :: '\n' :: rest).drop
      (pre.length + (name.length + 1)) = v ++ '\r' :: '\n' :: rest := by
    rw [show pre ++ (name ++ '=' :: []) ++ v ++ '\r' :: '\n' :: rest
        = (pre ++ (name ++ '=' :: [])) ++ (v ++ '\r' :: '\n' :: rest) by
      simp [List.append_assoc]]
    exact List.drop_left' (by simp)
  have hnosemi : ';' ∉ v ++ '\r' :: '\n' :: rest := by
    simp only [List.mem_append, List.mem_cons]
    rintro (h | h | h | h)
    · exact hnv h
    · exact absurd h (by decide)
    · exact absurd h (by decide)
    · exact hnr h
  simp only [List.append_assoc, List.cons_append, List.nil_append] at hfirst hdrop
  simp [extractCookie, hfirst, indexOfFrom, hdrop,
    findSub_single_none _ ';' hnosemi,
    findSub_crlf_first v rest hvcrlf, substringLC, List.take_left]

/-- `unifiLogin` on a response lacking the `TOKEN` cookie: returns `false`
and does not touch `isLoggedIn`. -/
theorem unifiLogin_noCookie (env : LoginEnv) (s : UnifiSession)
    (hc : env.hasCreds = true) (h1 : env.connect1 = true) (h2 : env.connect2 = true)
    (hcook : extractCookie env.resp2 "TOKEN".data = []) :
    (unifiLogin env s).1 = false ∧ (unifiLogin env s).2.isLoggedIn = s.isLoggedIn := by
  simp only [unifiLogin, hc, h1, h2]
  simp [hcook]
  split_ifs <;> rfl

/-- Header lookup is case-insensitive: names equal up to ASCII case give
the same result whenever the exact-case search misses for both. -/
theorem extractHeader_ci (resp n1 n2 : List Char)
    (hlow : toLowerList n1 = toLowerList n2)
    (h1 : findSub resp ('\r' :: '\n' :: (n1 ++ ':' :: ' ' :: [])) = none)
    (h2 : findSub resp ('\r' :: '\n' :: (n2 ++ ':' :: ' ' :: [])) = none) :
    extractHeader resp n1 = extractHeader resp n2 := by
  have hlen : n1.length = n2.length := by
    have := congrArg List.length hlow
    simpa [toLowerList] using this
  have hsearch : toLowerList ('\r' :: '\n' :: (n1 ++ ':' :: ' ' :: []))
      = toLowerList ('\r' :: '\n' :: (n2 ++ ':' :: ' ' :: [])) := by
    simp only [toLowerList] at hlow ⊢
    simp [hlow]
  have hslen : ('\r' :: '\n' :: (n1 ++ ':' :: ' ' :: [])).length
      = ('\r' :: '\n' :: (n2 ++ ':' :: ' ' :: [])).length := by
    simp [hlen]
  simp only [extractHeader, h1, h2, hsearch, hslen]

/-- Claim C9: the session cookie is the value of the first
`TOKEN=` match in the raw response, terminated at the first `;` or,
failing that, the first CRLF, and absent cookies yield `""`; a cookie-less
response makes `unifiLogin` return `false` without touching `isLoggedIn`;
CSRF header lookup is case-insensitive in the header name. -/
theorem c9_cookie_header_contract :
    (∀ resp : List Char, findSub resp ("TOKEN".data ++ '=' :: []) = none →
      extractCookie resp "TOKEN".data = []) ∧
    (∀ pre v rest : List Char,
      findSub (pre ++ ("TOKEN".data ++ '=' :: []) ++ v ++ ';' :: rest)
          ("TOKEN".data ++ '=' :: []) = some pre.length →
      ';' ∉ v →
      extractCookie (pre ++ ("TOKEN".data ++ '=' :: []) ++ v ++ ';' :: rest)
        "TOKEN".data = v) ∧
    (∀ pre v rest : List Char,
      findSub (pre ++ ("TOKEN".data ++ '=' :: []) ++ v ++ '\r' :: '\n' :: rest)
          ("TOKEN".data ++ '=' :: []) = some pre.length →
      ';' ∉ v → ';' ∉ rest → containsSub v ('\r' :: '\n' :: []) = false →
      extractCookie (pre ++ ("TOKEN".data ++ '=' :: []) ++ v ++ '\r' :: '\n' :: rest)
        "TOKEN".data = v) ∧
    (∀ (env : LoginEnv) (s : UnifiSession),
      env.hasCreds = true → env.connect1 = true → env.connect2 = true →
      extractCookie env.resp2 "TOKEN".data = [] →
      (unifiLogin env s).1 = false ∧ (unifiLogin env s).2.isLoggedIn = s.isLoggedIn) ∧
    (∀ resp n1 n2 : List Char, toLowerList n1 = toLowerList n2 →
      findSub resp ('\r' :: '\n' :: (n1 ++ ':' :: ' ' :: [])) = none →
      findSub resp ('\r' :: '\n' :: (n2 ++ ':' :: ' ' :: [])) = none →
      extractHeader resp n1 = extractHeader resp n2) :=
  ⟨fun resp h => extractCookie_absent resp "TOKEN".data h,
   fun pre v rest h1 h2 => extractCookie_semi "TOKEN".data pre v rest h1 h2,
   fun pre v rest h1 h2 h3 h4 => extractCookie_crlf "TOKEN".data pre v rest h1 h2 h3 h4,
   fun env s hc h1 h2 hcook => unifiLogin_noCookie env s hc h1 h2 hcook,
   fun resp n1 n2 hl h1 h2 => extractHeader_ci resp n1 n2 hl h1 h2⟩

theorem c9_witness :
    extractCookie ("Set-Cookie: ".data ++ ("TOKEN".data ++ '=' :: []) ++
        "abc123".data ++ ';' :: " Path=/\r\n".data) "TOKEN".data
      = "abc123".data ∧
    extractHeader "HTTP/1.1 200 OK\r\nX-CSRF-TOKEN: Value9\r\n\r\n".data
        "X-Csrf-Token".data
      = extractHeader "HTTP/1.1 200 OK\r\nX-CSRF-TOKEN: Value9\r\n\r\n".data
        "x-csrf-token".data :=
  ⟨c9_cookie_header_contract.2.1 "Set-Cookie: ".data "abc123".data
      " Path=/\r\n".data (by decide) (by decide),
   c9_cookie_header_contract.2.2.2.2
     "HTTP/1.1 200 OK\r\nX-CSRF-TOKEN: Value9\r\n\r\n".data
     "X-Csrf-Token".data "x-csrf-token".data (by decide) (by decide) (by decide)⟩

/-- Claim C4: decoding a valid chunked framing of any payload (any split
into non-empty chunks, including the empty payload as zero chunks)
through `ChunkedStream` with `isChunked = true` yields exactly the
original bytes in order and then reports end of stream. -/
theorem c4_chunked_roundtrip (chunks : List (List Char))
    (h : ∀ c ∈ chunks, c ≠ []) :
    (readAllSt (initialChunkedState (chunkEncode chunks) true)
        (chunkEncode chunks).length).1 = chunks.flatten ∧
    (readAllSt (initialChunkedState (chunkEncode chunks) true)
        (chunkEncode chunks).length).2.finished = true ∧
    (chunkedRead (readAllSt (initialChunkedState (chunkEncode chunks) true)
        (chunkEncode chunks).length).2).1 = none := by
  have he := readAllSt_encode chunks h (chunkEncode chunks).length le_rfl
  rw [show initialChunkedState (chunkEncode chunks) true
      = ⟨chunkEncode chunks, true, 0, false, true⟩ from rfl, he]
  refine ⟨rfl, rfl, ?_⟩
  simp [chunkedRead]

theorem c4_witness :
    (readAllSt (initialChunkedState (chunkEncode ("ab".data :: "c".data :: [])) true)
        (chunkEncode ("ab".data :: "c".data :: [])).length).1
      = ("ab".data :: "c".data :: []).flatten ∧
    (readAllSt (initialChunkedState (chunkEncode ("ab".data :: "c".data :: [])) true)
        (chunkEncode ("ab".data :: "c".data :: [])).length).2.finished = true ∧
    (chunkedRead (readAllSt
        (initialChunkedState (chunkEncode ("ab".data :: "c".data :: [])) true)
        (chunkEncode ("ab".data :: "c".data :: [])).length).2).1 = none :=
  c4_chunked_roundtrip ("ab".data :: "c".data :: []) (by decide)

/-- Claim C5 counterexample: after the header `3\r\n` promises three data
bytes but only `AB` ever arrive, `read()` stalls and returns `-1` (`none`)
— yet the stream is NOT in the `finished` state, contradicting the claim
that a chunk-data read stall transitions to `Finished`. -/
theorem c5_counterexample :
    (readAllSt (initialChunkedState "3\r\nAB".data true) 5).1 = "AB".data ∧
    (readAllSt (initialChunkedState "3\r\nAB".data true) 5).2.remainingInChunk = 1 ∧
    (readAllSt (initialChunkedState "3\r\nAB".data true) 5).2.input = [] ∧
    (chunkedRead (readAllSt (initialChunkedState "3\r\nAB".data true) 5).2).1
      = none ∧
    (readAllSt (initialChunkedState "3\r\nAB".data true) 5).2.finished = false := by
  decide

/-- Claim C5 (amended): an unparseable (or zero) chunk-size line and a
stall while waiting for the size line set `finished`; afterwards every
`read()` is `-1` and `available()` is `0`. A mid-chunk data stall also
returns `-1` with `available() = 0` but leaves the state unchanged — the
`finished` flag is NOT set in that case. No path raises an error. -/
theorem c5_early_termination (st : ChunkedState)
    (hch : st.isChunked = true) (hnf : st.finished = false) :
    (st.needChunkSize = true → st.input = [] →
      chunkedRead st = (none, { st with finished := true }) ∧
      chunkedAvailable st = (0, { st with finished := true })) ∧
    (∀ a t, st.needChunkSize = true → st.input = a :: t →
      strtol16 (splitLine st.input).1 = 0 →
      (chunkedRead st).1 = none ∧ (chunkedRead st).2.finished = true) ∧
    (st.needChunkSize = false → 0 < st.remainingInChunk → st.input = [] →
      chunkedRead st = (none, st) ∧ (chunkedAvailable st).1 = 0) ∧
    (∀ st2 : ChunkedState, st2.finished = true →
      chunkedRead st2 = (none, st2) ∧ chunkedAvailable st2 = (0, st2)) := by
  refine ⟨?_, ?_, ?_, ?_⟩
  · intro hn hin
    constructor
    · simp [chunkedRead, readNextChunkSize, hch, hnf, hn, hin]
    · simp [chunkedAvailable, readNextChunkSize, hch, hnf, hn, hin]
  · intro a t hn hin hz
    rw [hin] at hz
    simp [chunkedRead, readNextChunkSize, hch, hnf, hn, hin, hz]
  · intro hn hr hin
    constructor
    · rw [chunkedRead_core_eq st hnf hch hn]
      simp [chunkedReadCore, hin, not_le.mpr hr]
    · simp [chunkedAvailable, hch, hnf, hn, hin, min_eq_right hr.le]
  · intro st2 h2
    exact ⟨by simp [chunkedRead, h2], by simp [chunkedAvailable, h2]⟩

theorem c5_witness :
    chunkedRead (initialChunkedState [] true) = (none, ⟨[], true, 0, true, true⟩) ∧
    chunkedAvailable (initialChunkedState [] true)
      = (0, ⟨[], true, 0, true, true⟩) := by
  have h := (c5_early_termination (initialChunkedState [] true) rfl rfl).1 rfl rfl
  exact ⟨h.1, h.2⟩
